import Mathlib

/-!
Shallow embedding of the kakeibo_lens repository's core logic:
storage CRUD (src/lib/storage.ts), monthly aggregation
(calculateMonthlySummary in src/DEPLOYMENT.md home-screen code),
the analytics screen's category aggregation and 6-month trend
(src/app/(tabs)/analytics.tsx), the category normalizer and ingestion
(src/unnamed/part_002, src/app/(tabs)/scan.tsx), and CSV export.

Entry amounts are integer yen (the data model of the spec and of every
value the app produces), so they are modelled as ℤ; the two places the
code divides (percentage and average daily spending) produce ℚ,
idealising JS float arithmetic as exact rational arithmetic. JS `Date`
values parsed from an entry's date string are abstracted into a
`JSDate` record carrying the observable year, 1-based month, and
epoch-time key. JS `Map` (insertion-ordered, set-overwrites) is
modelled as an association list with in-place overwrite.
-/

/-- `new Date(e.date)` as observed by the code: `getFullYear()`,
    `getMonth() + 1`, `getTime()`, and the raw string (used verbatim in CSV). -/
structure JSDate where
  raw : String
  year : Int
  month : Int
  time : Int
deriving DecidableEq, Repr

/-- KakeiboEntry from src/types/kakeibo.ts. -/
structure Entry where
  id : String
  date : JSDate
  itemName : String
  amount : Int
  categoryId : String
  categoryName : Option String := none
  note : Option String := none
  imageUri : Option String := none
  createdAt : String := ""
  updatedAt : String := ""
deriving DecidableEq, Repr

/-- Category from src/types/kakeibo.ts. -/
structure Category where
  id : String
  name : String
  color : String
  icon : Option String := none
  createdAt : String := ""
deriving DecidableEq, Repr

/-- One line item of AIAnalysisResult from src/types/kakeibo.ts. -/
structure AIItem where
  date : JSDate
  itemName : String
  amount : Int
  suggestedCategory : Option String := none
deriving DecidableEq, Repr

/-- AIAnalysisResult from src/types/kakeibo.ts (confidence is never
    computed with, so an integer-scaled score loses nothing). -/
structure AIAnalysisResult where
  entries : List AIItem
  confidence : Int
  rawText : Option String := none
deriving DecidableEq, Repr

/-- Value stored in the aggregation `Map` of both
    calculateMonthlySummary and getCategoryData:
    `{ name, color, amount }`. -/
structure CatDatum where
  name : String
  color : String
  amount : Int
deriving DecidableEq, Repr

/-- One element of MonthlySummary.categoryBreakdown. -/
structure BreakdownItem where
  categoryId : String
  categoryName : String
  categoryColor : String
  amount : Int
  percentage : ℚ
deriving DecidableEq, Repr

/-- MonthlySummary from src/types/kakeibo.ts. -/
structure MonthlySummary where
  year : Int
  month : Int
  totalAmount : Int
  categoryBreakdown : List BreakdownItem
  entryCount : Nat
  averageDailySpending : ℚ
deriving DecidableEq, Repr

/-! ### JS Map as an association list (insertion order, set overwrites) -/

/-- `map.set(k, v)`: overwrite in place if the key exists, else append. -/
def mapSet (k : String) (v : CatDatum) : List (String × CatDatum) → List (String × CatDatum)
  | [] => [(k, v)]
  | (k', v') :: rest => if k' = k then (k, v) :: rest else (k', v') :: mapSet k v rest

/-- `map.get(k)`: first binding of the key, if any. -/
def mapFind? (k : String) : List (String × CatDatum) → Option CatDatum
  | [] => none
  | (k', v') :: rest => if k' = k then some v' else mapFind? k rest

/-- `const cat = map.get(k); if (cat) cat.amount += a;`
    (in-place addition to the value object, a no-op on a missing key). -/
def mapAdd (k : String) (a : Int) : List (String × CatDatum) → List (String × CatDatum)
  | [] => []
  | (k', v') :: rest =>
      if k' = k then (k', { v' with amount := v'.amount + a }) :: rest
      else (k', v') :: mapAdd k a rest

/-! ### The shared aggregation core of calculateMonthlySummary and
getCategoryData (the two source functions contain the identical lines). -/

/-- `categories.forEach(cat => map.set(cat.id, {name, color, amount: 0}))`. -/
def buildCategoryMap (categories : List Category) : List (String × CatDatum) :=
  categories.foldl (fun m c => mapSet c.id ⟨c.name, c.color, 0⟩ m) []

/-- `entries.forEach(e => { const cat = map.get(e.categoryId); if (cat) cat.amount += e.amount; })`. -/
def accumulateEntries (m : List (String × CatDatum)) (entries : List Entry) :
    List (String × CatDatum) :=
  entries.foldl (fun acc e => mapAdd e.categoryId e.amount acc) m

/-- Stable insertion keeping larger keys first; equal keys keep the
    incoming element first (so the fold below is a stable descending sort,
    matching the ES2019 stable `Array.prototype.sort` with comparator
    `(a, b) => b.amount - a.amount`). -/
def insertByKeyDesc (key : α → Int) (x : α) : List α → List α
  | [] => [x]
  | y :: ys => if key x < key y then y :: insertByKeyDesc key x ys else x :: y :: ys

/-- `.sort((a, b) => b.amount - a.amount)` as a stable descending sort. -/
def sortByKeyDesc (key : α → Int) (l : List α) : List α :=
  l.foldr (insertByKeyDesc key) []

/-! ### calculateMonthlySummary (home screen, src/DEPLOYMENT.md lines 176-220) -/

/-- `entries.reduce((sum, e) => sum + e.amount, 0)`. -/
def totalAmountOf (entries : List Entry) : Int :=
  (entries.map (fun e => e.amount)).sum

/-- `totalAmount > 0 ? (amount / totalAmount) * 100 : 0`. -/
def percentageOf (totalAmount amount : Int) : ℚ :=
  if 0 < totalAmount then (amount : ℚ) / (totalAmount : ℚ) * 100 else 0

/-- Gregorian leap-year rule (what JS `Date` implements). -/
def isLeapYear (y : Int) : Bool :=
  (y % 4 == 0 && y % 100 != 0) || y % 400 == 0

/-- `new Date(year, month, 0).getDate()`: day 0 of 0-based month index
    `month` is the last day of the previous month index, i.e. of the
    1-based month `month`; computed through the absolute month count so
    that JS month normalization is mirrored. -/
def daysInMonth (year month : Int) : Int :=
  let t := 12 * year + month - 1
  let yy := t.fdiv 12
  let mm := t.emod 12 + 1
  if mm == 2 then (if isLeapYear yy then 29 else 28)
  else if mm == 4 || mm == 6 || mm == 9 || mm == 11 then 30
  else 31

/-- calculateMonthlySummary from the home-screen code quoted in
    src/DEPLOYMENT.md (lines 176-220). -/
def calculateMonthlySummary (entries : List Entry) (categories : List Category)
    (year month : Int) : MonthlySummary :=
  let totalAmount := totalAmountOf entries
  let categoryMap := accumulateEntries (buildCategoryMap categories) entries
  let categoryBreakdown :=
    sortByKeyDesc (fun b => b.amount)
      ((categoryMap.map (fun kv =>
          ({ categoryId := kv.1
             categoryName := kv.2.name
             categoryColor := kv.2.color
             amount := kv.2.amount
             percentage := percentageOf totalAmount kv.2.amount } : BreakdownItem))).filter
        (fun b => 0 < b.amount))
  { year := year
    month := month
    totalAmount := totalAmount
    categoryBreakdown := categoryBreakdown
    entryCount := entries.length
    averageDailySpending := (totalAmount : ℚ) / ((daysInMonth year month : Int) : ℚ) }

/-! ### analytics screen (src/app/(tabs)/analytics.tsx) -/

/-- getCategoryData (analytics.tsx lines 72-88): same map build and
    accumulation, then `Array.from(map.values()).filter(a > 0).sort(desc)`. -/
def getCategoryData (categories : List Category) (monthlyEntries : List Entry) :
    List CatDatum :=
  let categoryMap := accumulateEntries (buildCategoryMap categories) monthlyEntries
  sortByKeyDesc (fun d => d.amount)
    ((categoryMap.map (fun kv => kv.2)).filter (fun d => 0 < d.amount))

/-- getEntriesByMonth (src/lib/storage.ts lines 80-86): filter by the
    parsed date's calendar year and 1-based month. -/
def getEntriesByMonth (entries : List Entry) (year month : Int) : List Entry :=
  entries.filter (fun e => e.date.year == year && e.date.month == month)

/-- The per-iteration month resolution of getMonthlyTrendData
    (analytics.tsx lines 104-111): `month = currentMonth - i;
    if (month <= 0) { month += 12; year -= 1 }`. -/
def resolveMonth (currentYear currentMonth i : Int) : Int × Int :=
  let month := currentMonth - i
  if month ≤ 0 then (currentYear - 1, month + 12) else (currentYear, month)

/-- getMonthlyTrendData (analytics.tsx lines 100-121): the loop
    `for (let i = 5; i >= 0; i--)` pushing each resolved month's total
    and label. -/
def getMonthlyTrendData (entries : List Entry) (currentYear currentMonth : Int) :
    List Int × List String :=
  let idxs : List Int := [5, 4, 3, 2, 1, 0]
  (idxs.map (fun i =>
      totalAmountOf (getEntriesByMonth entries
        (resolveMonth currentYear currentMonth i).1
        (resolveMonth currentYear currentMonth i).2)),
   idxs.map (fun i => toString (resolveMonth currentYear currentMonth i).2 ++ "月"))

/-! ### Category Normalizer (src/unnamed/part_002, lines 174-226) -/

/-- Does `s` contain `sub` as a contiguous run? -/
def listHasRun (s sub : List Char) : Bool :=
  match s with
  | [] => sub.isEmpty
  | _ :: rest => sub.isPrefixOf s || listHasRun rest sub

/-- `s.includes(sub)` (substring containment), on character lists. -/
def jsIncludes (s sub : List Char) : Bool :=
  listHasRun s sub

/-- JS `toLowerCase()` as per-character lowercasing (the identity on
    every character of the mapping table, which is Japanese). -/
def jsToLower (s : String) : List Char :=
  s.data.map Char.toLower

/-- JS `trim()`: strip leading and trailing whitespace. -/
def jsTrim (l : List Char) : List Char :=
  ((l.dropWhile Char.isWhitespace).reverse.dropWhile Char.isWhitespace).reverse

/-- The ordered mapping table `categoryMap` of normalizeCategoryName,
    in source order (`Object.entries` preserves insertion order for
    string keys). -/
def categoryTable : List (String × String) :=
  [("食費", "食費"), ("食事", "食費"), ("食料", "食費"), ("食材", "食費"), ("外食", "食費"),
   ("日用品", "日用品"), ("生活用品", "日用品"), ("雑貨", "日用品"),
   ("交通費", "交通費"), ("交通", "交通費"), ("電車", "交通費"), ("バス", "交通費"),
   ("タクシー", "交通費"), ("ガソリン", "交通費"),
   ("娯楽", "娯楽"), ("趣味", "娯楽"), ("レジャー", "娯楽"), ("エンタメ", "娯楽"),
   ("医療費", "医療費"), ("医療", "医療費"), ("病院", "医療費"), ("薬", "医療費"),
   ("教育費", "教育費"), ("教育", "教育費"), ("学費", "教育費"), ("書籍", "教育費"),
   ("光熱費", "光熱費"), ("電気", "光熱費"), ("ガス", "光熱費"), ("水道", "光熱費"),
   ("通信費", "通信費"), ("通信", "通信費"), ("電話", "通信費"), ("インターネット", "通信費"),
   ("その他", "その他")]

/-- normalizeCategoryName (src/unnamed/part_002 lines 174-226):
    `!suggestedCategory` is true for `undefined` and for the empty
    string; otherwise `toLowerCase().trim()` and first-substring-match
    over the table, falling back to その他. -/
def normalizeCategoryName (suggestedCategory : Option String) : String :=
  match suggestedCategory with
  | none => "その他"
  | some s =>
    if s = "" then "その他"
    else
      let normalized := jsTrim (jsToLower s)
      match categoryTable.find? (fun kv => jsIncludes normalized (jsToLower kv.1)) with
      | some kv => kv.2
      | none => "その他"

/-! ### Storage operations (src/lib/storage.ts), as pure functions of the
persisted collection. A thrown error is `Except.error` with the thrown
message; `.error` means `saveEntries`/`saveCategories` was never reached,
so the persisted collection is untouched. -/

/-- `Partial<KakeiboEntry>` as passed to updateEntry. -/
structure EntryPatch where
  id : Option String := none
  date : Option JSDate := none
  itemName : Option String := none
  amount : Option Int := none
  categoryId : Option String := none
  categoryName : Option (Option String) := none
  note : Option (Option String) := none
  imageUri : Option (Option String) := none
  createdAt : Option String := none
deriving DecidableEq, Repr

/-- `{ ...entries[index], ...updates, updatedAt: new Date().toISOString() }`. -/
def applyEntryPatch (e : Entry) (p : EntryPatch) (now : String) : Entry :=
  { id := p.id.getD e.id
    date := p.date.getD e.date
    itemName := p.itemName.getD e.itemName
    amount := p.amount.getD e.amount
    categoryId := p.categoryId.getD e.categoryId
    categoryName := p.categoryName.getD e.categoryName
    note := p.note.getD e.note
    imageUri := p.imageUri.getD e.imageUri
    createdAt := p.createdAt.getD e.createdAt
    updatedAt := now }

/-- `Partial<Category>` as passed to updateCategory. -/
structure CategoryPatch where
  id : Option String := none
  name : Option String := none
  color : Option String := none
  icon : Option (Option String) := none
  createdAt : Option String := none
deriving DecidableEq, Repr

/-- `{ ...categories[index], ...updates }`. -/
def applyCategoryPatch (c : Category) (p : CategoryPatch) : Category :=
  { id := p.id.getD c.id
    name := p.name.getD c.name
    color := p.color.getD c.color
    icon := p.icon.getD c.icon
    createdAt := p.createdAt.getD c.createdAt }

/-- addEntry (storage.ts lines 45-49): `entries.push(entry)` then save. -/
def addEntry (entries : List Entry) (entry : Entry) : List Entry :=
  entries ++ [entry]

/-- updateEntry (storage.ts lines 54-66): `findIndex` on id; throw when
    missing, else replace the first match (merging the patch and
    stamping updatedAt) and save. -/
def updateEntry (entries : List Entry) (id : String) (updates : EntryPatch)
    (now : String) : Except String (List Entry) :=
  match entries with
  | [] => .error "エントリーが見つかりません"
  | e :: rest =>
      if e.id = id then .ok (applyEntryPatch e updates now :: rest)
      else (updateEntry rest id updates now).map (e :: ·)

/-- deleteEntry (storage.ts lines 71-75): filter out the id and save —
    no existence check, never throws. -/
def deleteEntry (entries : List Entry) (id : String) : Except String (List Entry) :=
  .ok (entries.filter (fun e => ¬ e.id = id))

/-- addCategory (storage.ts lines 128-132). -/
def addCategory (categories : List Category) (category : Category) : List Category :=
  categories ++ [category]

/-- updateCategory (storage.ts lines 137-145). -/
def updateCategory (categories : List Category) (id : String)
    (updates : CategoryPatch) : Except String (List Category) :=
  match categories with
  | [] => .error "カテゴリが見つかりません"
  | c :: rest =>
      if c.id = id then .ok (applyCategoryPatch c updates :: rest)
      else (updateCategory rest id updates).map (c :: ·)

/-- deleteCategory (storage.ts lines 150-154): filter, never throws. -/
def deleteCategory (categories : List Category) (id : String) :
    Except String (List Category) :=
  .ok (categories.filter (fun c => ¬ c.id = id))

/-! ### Ingestion (analyzeImage in src/app/(tabs)/scan.tsx, lines 96-157).
The id generator `Date.now() + Math.random() suffix` is abstracted as a
function of the loop iteration; `imageUri` and the creation timestamp are
parameters. Note the code does NOT call normalizeCategoryName: it stores
`entry.suggestedCategory || 'その他'` directly. -/

/-- JS `x || d` for `x : string | undefined`: the empty string is falsy. -/
def jsOrElse (x : Option String) (d : String) : String :=
  match x with
  | none => d
  | some s => if s = "" then d else s

/-- The entry literal constructed for one analysis line item
    (scan.tsx lines 113-127). -/
def mkEntryFromItem (mkId : Nat → String) (imageUri now : String) (n : Nat)
    (item : AIItem) : Entry :=
  let categoryName := jsOrElse item.suggestedCategory "その他"
  { id := mkId n
    date := item.date
    itemName := item.itemName
    amount := item.amount
    categoryId := categoryName
    categoryName := some categoryName
    imageUri := some imageUri
    createdAt := now
    updatedAt := now }

/-- `for (const entry of result.entries) { ...; await addEntry(...) }`:
    each iteration appends one constructed entry to the store. -/
def ingestLoop (mkId : Nat → String) (imageUri now : String) :
    List AIItem → List Entry → Nat → List Entry
  | [], store, _ => store
  | item :: rest, store, n =>
      ingestLoop mkId imageUri now rest
        (addEntry store (mkEntryFromItem mkId imageUri now n item)) (n + 1)

/-- analyzeImage (scan.tsx lines 96-157) restricted to its effect on the
    entry store: zero line items leave the store untouched; otherwise the
    loop writes one entry per item. -/
def analyzeImage (mkId : Nat → String) (imageUri now : String)
    (result : AIAnalysisResult) (store : List Entry) : List Entry :=
  if result.entries.length = 0 then store
  else ingestLoop mkId imageUri now result.entries store 0

/-! ### CSV export (generateCSV, src/lib/storage.ts lines 175-195) -/

/-- `new Map(categories.map(c => [c.id, c.name]))`: later duplicate keys
    overwrite earlier ones; lookup is by key. -/
def categoryNameMap (categories : List Category) : List (String × String) :=
  categories.foldl
    (fun m c =>
      if m.any (fun kv => kv.1 = c.id)
      then m.map (fun kv => if kv.1 = c.id then (kv.1, c.name) else kv)
      else m ++ [(c.id, c.name)])
    []

/-- `categoryMap.get(entry.categoryId) || 'その他'` (a looked-up empty
    name is falsy and also falls back). -/
def lookupCategoryName (m : List (String × String)) (id : String) : String :=
  match m.find? (fun kv => kv.1 = id) with
  | none => "その他"
  | some kv => if kv.2 = "" then "その他" else kv.2

/-- One CSV data row:
    `date,"itemName",amount,"categoryName","note"` with newline. -/
def csvRow (m : List (String × String)) (e : Entry) : String :=
  e.date.raw ++ ",\"" ++ e.itemName ++ "\"," ++ toString e.amount ++ ",\"" ++
    lookupCategoryName m e.categoryId ++ "\",\"" ++ (e.note.getD "") ++ "\"\n"

/-- generateCSV (storage.ts lines 175-195) as a function of the loaded
    entries and categories: header, then one row per entry sorted by
    parsed date descending (`new Date(b.date).getTime() - new Date(a.date).getTime()`). -/
def generateCSV (entries : List Entry) (categories : List Category) : String :=
  let categoryMap := categoryNameMap categories
  let header := "日付,項目名,金額,カテゴリ,メモ\n"
  let sorted := sortByKeyDesc (fun e => e.date.time) entries
  header ++ String.join (sorted.map (csvRow categoryMap))

/-! ### Derived notions used by the theorems -/

/-- Keys of the aggregation map, in insertion order. -/
def mapKeys (m : List (String × CatDatum)) : List String :=
  m.map Prod.fst

/-- The identifiers of the known categories. -/
def catIds (categories : List Category) : List String :=
  categories.map (fun c => c.id)

/-- Total amount of the entries whose category reference is `k`. -/
def entrySum (entries : List Entry) (k : String) : Int :=
  ((entries.filter (fun e => e.categoryId = k)).map (fun e => e.amount)).sum

/-- Total amount over the values of the aggregation map. -/
def sumAmounts (m : List (String × CatDatum)) : Int :=
  (m.map (fun kv => kv.2.amount)).sum

/-! ### Sort lemmas -/

theorem insertByKeyDesc_perm (key : α → Int) (x : α) (l : List α) :
    List.Perm (insertByKeyDesc key x l) (x :: l) := by
  induction l with
  | nil => exact List.Perm.refl _
  | cons y ys ih =>
      unfold insertByKeyDesc
      split
      · exact (ih.cons y).trans (List.Perm.swap x y ys)
      · exact List.Perm.refl _

theorem sortByKeyDesc_perm (key : α → Int) (l : List α) :
    List.Perm (sortByKeyDesc key l) l := by
  induction l with
  | nil => exact List.Perm.refl _
  | cons x xs ih =>
      exact (insertByKeyDesc_perm key x (sortByKeyDesc key xs)).trans (ih.cons x)

theorem map_insertByKeyDesc (f : α → β) (key : α → Int) (key2 : β → Int)
    (hk : ∀ a, key2 (f a) = key a) (x : α) (l : List α) :
    (insertByKeyDesc key x l).map f = insertByKeyDesc key2 (f x) (l.map f) := by
  induction l with
  | nil => rfl
  | cons y ys ih =>
      by_cases h : key x < key y <;>
        simp [insertByKeyDesc, h, hk, ih]

theorem map_sortByKeyDesc (f : α → β) (key : α → Int) (key2 : β → Int)
    (hk : ∀ a, key2 (f a) = key a) (l : List α) :
    (sortByKeyDesc key l).map f = sortByKeyDesc key2 (l.map f) := by
  induction l with
  | nil => rfl
  | cons x xs ih =>
      simp only [sortByKeyDesc, List.foldr] at *
      rw [map_insertByKeyDesc f key key2 hk, ih]

theorem map_filter_comm (f : α → β) (p : α → Bool) (q : β → Bool)
    (h : ∀ a, q (f a) = p a) (l : List α) :
    (l.filter p).map f = (l.map f).filter q := by
  induction l with
  | nil => rfl
  | cons x xs ih =>
      by_cases hp : p x <;>
        simp [List.filter_cons, h, hp, ih]

/-! ### Aggregation-map lemmas -/

theorem mapAdd_keys (k : String) (a : Int) (m : List (String × CatDatum)) :
    mapKeys (mapAdd k a m) = mapKeys m := by
  induction m with
  | nil => rfl
  | cons kv rest ih =>
      obtain ⟨k', v'⟩ := kv
      by_cases h : k' = k
      · simp [mapAdd, h, mapKeys]
      · simpa [mapAdd, h, mapKeys] using ih

theorem accumulateEntries_keys (m : List (String × CatDatum)) (es : List Entry) :
    mapKeys (accumulateEntries m es) = mapKeys m := by
  induction es generalizing m with
  | nil => rfl
  | cons e rest ih =>
      simp only [accumulateEntries, List.foldl] at *
      rw [ih, mapAdd_keys]

theorem mapSet_mem_keys (k : String) (v : CatDatum) (m : List (String × CatDatum))
    (x : String) : x ∈ mapKeys (mapSet k v m) ↔ x ∈ mapKeys m ∨ x = k := by
  induction m with
  | nil => simp [mapSet, mapKeys]
  | cons kv rest ih =>
      obtain ⟨k', v'⟩ := kv
      by_cases h : k' = k <;> simp [mapSet, h, mapKeys] at ih ⊢
      · subst h; tauto
      · rw [ih]; tauto

theorem mapSet_keys_nodup (k : String) (v : CatDatum) (m : List (String × CatDatum))
    (h : (mapKeys m).Nodup) : (mapKeys (mapSet k v m)).Nodup := by
  induction m with
  | nil => simp [mapSet, mapKeys]
  | cons kv rest ih =>
      obtain ⟨k', v'⟩ := kv
      simp only [mapKeys, List.map_cons, List.nodup_cons] at h
      by_cases hk : k' = k
      · subst hk
        simpa [mapSet, mapKeys, List.nodup_cons] using h
      · simp only [mapSet, if_neg hk, mapKeys, List.map_cons, List.nodup_cons]
        refine ⟨fun hc => ?_, ih h.2⟩
        rcases (mapSet_mem_keys k v rest k').1 hc with hm | he
        · exact h.1 hm
        · exact hk he

theorem buildCategoryMap_keys_nodup (cats : List Category) :
    (mapKeys (buildCategoryMap cats)).Nodup := by
  suffices h : ∀ m, (mapKeys m).Nodup →
      (mapKeys (cats.foldl (fun m c => mapSet c.id ⟨c.name, c.color, 0⟩ m) m)).Nodup by
    exact h [] (by simp [mapKeys])
  induction cats with
  | nil => intro m hm; exact hm
  | cons c rest ih =>
      intro m hm
      exact ih _ (mapSet_keys_nodup _ _ _ hm)

theorem buildCategoryMap_mem_keys (cats : List Category) (x : String) :
    x ∈ mapKeys (buildCategoryMap cats) ↔ x ∈ catIds cats := by
  suffices h : ∀ m, x ∈ mapKeys (cats.foldl (fun m c => mapSet c.id ⟨c.name, c.color, 0⟩ m) m)
      ↔ x ∈ mapKeys m ∨ x ∈ catIds cats by
    simpa [mapKeys] using h []
  induction cats with
  | nil => intro m; simp [catIds]
  | cons c rest ih =>
      intro m
      simp only [List.foldl, ih, mapSet_mem_keys, catIds, List.map_cons, List.mem_cons]
      tauto

theorem mapSet_amount_zero (k : String) (v : CatDatum) (hv : v.amount = 0)
    (m : List (String × CatDatum)) (hm : ∀ kv ∈ m, kv.2.amount = 0) :
    ∀ kv ∈ mapSet k v m, kv.2.amount = 0 := by
  induction m with
  | nil =>
      intro kv hkv
      simp only [mapSet, List.mem_singleton] at hkv
      simp [hkv, hv]
  | cons kv' m' ih =>
      obtain ⟨a, b⟩ := kv'
      intro kv hkv
      by_cases h' : a = k
      · simp only [mapSet, if_pos h', List.mem_cons] at hkv
        rcases hkv with h1 | h2
        · simp [h1, hv]
        · exact hm _ (List.mem_cons_of_mem _ h2)
      · simp only [mapSet, if_neg h', List.mem_cons] at hkv
        rcases hkv with h1 | h2
        · exact hm _ (by simp [h1])
        · exact ih (fun kv h => hm kv (List.mem_cons_of_mem _ h)) _ h2

theorem buildCategoryMap_amount_zero (cats : List Category) :
    ∀ kv ∈ buildCategoryMap cats, kv.2.amount = 0 := by
  suffices h : ∀ m, (∀ kv ∈ m, kv.2.amount = 0) →
      ∀ kv ∈ cats.foldl (fun m c => mapSet c.id ⟨c.name, c.color, 0⟩ m) m, kv.2.amount = 0 by
    exact h [] (by simp)
  induction cats with
  | nil => intro m hm; exact hm
  | cons c rest ih =>
      intro m hm
      exact ih _ (mapSet_amount_zero c.id _ rfl m hm)

theorem mapAdd_sumAmounts (k : String) (a : Int) (m : List (String × CatDatum)) :
    sumAmounts (mapAdd k a m) = sumAmounts m + (if k ∈ mapKeys m then a else 0) := by
  induction m with
  | nil => simp [mapAdd, sumAmounts, mapKeys]
  | cons kv rest ih =>
      obtain ⟨k0, v0⟩ := kv
      by_cases h : k0 = k
      · subst h
        simp only [mapAdd, if_pos rfl, sumAmounts, List.map_cons, List.sum_cons,
          mapKeys, List.mem_cons, true_or, if_true]
        ring
      · have hmem : (k ∈ mapKeys ((k0, v0) :: rest)) ↔ k ∈ mapKeys rest := by
          simp only [mapKeys, List.map_cons, List.mem_cons]
          exact or_iff_right (fun hk => h hk.symm)
        simp only [mapAdd, if_neg h, sumAmounts, List.map_cons, List.sum_cons, hmem] at ih ⊢
        rw [ih]
        ring

theorem accumulateEntries_sumAmounts (es : List Entry) (m : List (String × CatDatum)) :
    sumAmounts (accumulateEntries m es)
      = sumAmounts m
        + ((es.filter (fun e => e.categoryId ∈ mapKeys m)).map (fun e => e.amount)).sum := by
  induction es generalizing m with
  | nil => simp [accumulateEntries]
  | cons e rest ih =>
      have hkeys := mapAdd_keys e.categoryId e.amount m
      simp only [accumulateEntries, List.foldl] at ih ⊢
      rw [ih, mapAdd_sumAmounts]
      simp only [hkeys]
      by_cases hm : e.categoryId ∈ mapKeys m
      · have hd : decide (e.categoryId ∈ mapKeys m) = true := by simpa using hm
        simp only [List.filter_cons, hd, if_true, List.map_cons, List.sum_cons, if_pos hm]
        ring
      · have hd : decide (e.categoryId ∈ mapKeys m) = false := by simpa using hm
        simp only [List.filter_cons, hd, Bool.false_eq_true, if_false, if_neg hm]
        ring

theorem mapAdd_find?_eq (k : String) (a : Int) (m : List (String × CatDatum)) :
    mapFind? k (mapAdd k a m)
      = (mapFind? k m).map (fun v => { v with amount := v.amount + a }) := by
  induction m with
  | nil => rfl
  | cons kv rest ih =>
      obtain ⟨k0, v0⟩ := kv
      by_cases h0 : k0 = k
      · subst h0
        simp [mapAdd, mapFind?]
      · simp [mapAdd, mapFind?, h0, ih]

theorem mapAdd_find?_ne (k : String) (a : Int) (m : List (String × CatDatum))
    (k' : String) (h : ¬ k' = k) :
    mapFind? k' (mapAdd k a m) = mapFind? k' m := by
  induction m with
  | nil => rfl
  | cons kv rest ih =>
      obtain ⟨k0, v0⟩ := kv
      by_cases h0 : k0 = k
      · subst h0
        have hne : ¬ k0 = k' := fun hh => h hh.symm
        simp [mapAdd, mapFind?, hne]
      · by_cases h1 : k0 = k'
        · subst h1
          simp [mapAdd, mapFind?, h0]
        · simp [mapAdd, mapFind?, h0, h1, ih]

theorem mapFind?_some_mem (m : List (String × CatDatum)) (k : String) (v : CatDatum)
    (h : mapFind? k m = some v) : (k, v) ∈ m := by
  induction m with
  | nil => simp [mapFind?] at h
  | cons kv rest ih =>
      obtain ⟨k0, v0⟩ := kv
      by_cases h0 : k0 = k
      · subst h0
        rw [mapFind?, if_pos rfl] at h
        injection h with h'
        subst h'
        exact List.mem_cons_self _ _
      · rw [mapFind?, if_neg h0] at h
        exact List.mem_cons_of_mem _ (ih h)

theorem mem_iff_mapFind? (m : List (String × CatDatum)) (h : (mapKeys m).Nodup)
    (k : String) (v : CatDatum) : (k, v) ∈ m ↔ mapFind? k m = some v := by
  induction m with
  | nil => simp [mapFind?]
  | cons kv rest ih =>
      obtain ⟨k0, v0⟩ := kv
      simp only [mapKeys, List.map_cons, List.nodup_cons] at h
      by_cases hk : k0 = k
      · subst hk
        rw [mapFind?, if_pos rfl]
        simp only [List.mem_cons, Prod.mk.injEq, true_and, Option.some.injEq]
        constructor
        · rintro (hv | hmem)
          · exact hv.symm
          · exact absurd (List.mem_map_of_mem Prod.fst hmem) h.1
        · intro hv
          exact Or.inl hv.symm
      · rw [mapFind?, if_neg hk, ← ih h.2]
        simp only [List.mem_cons, Prod.mk.injEq]
        constructor
        · rintro (⟨hk', -⟩ | hm)
          · exact absurd hk'.symm hk
          · exact hm
        · exact fun hm => Or.inr hm

theorem entrySum_cons_eq (e : Entry) (rest : List Entry) (k : String)
    (h : e.categoryId = k) : entrySum (e :: rest) k = e.amount + entrySum rest k := by
  have hd : decide (e.categoryId = k) = true := by simp [h]
  simp [entrySum, List.filter_cons, hd]

theorem entrySum_cons_ne (e : Entry) (rest : List Entry) (k : String)
    (h : ¬ e.categoryId = k) : entrySum (e :: rest) k = entrySum rest k := by
  have hd : decide (e.categoryId = k) = false := by simp [h]
  simp [entrySum, List.filter_cons, hd]

theorem accumulateEntries_find? (es : List Entry) (m : List (String × CatDatum))
    (k : String) :
    mapFind? k (accumulateEntries m es)
      = (mapFind? k m).map (fun v => { v with amount := v.amount + entrySum es k }) := by
  induction es generalizing m with
  | nil =>
      simp only [accumulateEntries, List.foldl_nil, entrySum, List.filter_nil,
        List.map_nil, List.sum_nil, add_zero]
      cases mapFind? k m <;> rfl
  | cons e rest ih =>
      simp only [accumulateEntries, List.foldl] at ih ⊢
      rw [ih]
      by_cases hk : e.categoryId = k
      · subst hk
        rw [mapAdd_find?_eq, entrySum_cons_eq e rest e.categoryId rfl]
        cases mapFind? e.categoryId m with
        | none => rfl
        | some v =>
            simp only [Option.map_some', Option.some.injEq]
            rw [add_assoc]
      · rw [mapAdd_find?_ne e.categoryId e.amount m k (fun hh => hk hh.symm),
          entrySum_cons_ne e rest k hk]

/-- Every binding reached after accumulation over the category map built
    from `cats` carries exactly the total of the entries referencing its key. -/
theorem accumulated_amount_eq (entries : List Entry) (cats : List Category)
    (k : String) (v : CatDatum)
    (h : (k, v) ∈ accumulateEntries (buildCategoryMap cats) entries) :
    v.amount = entrySum entries k := by
  have hnd : (mapKeys (accumulateEntries (buildCategoryMap cats) entries)).Nodup := by
    rw [accumulateEntries_keys]; exact buildCategoryMap_keys_nodup cats
  have hfind := (mem_iff_mapFind? _ hnd k v).1 h
  rw [accumulateEntries_find?] at hfind
  cases hb : mapFind? k (buildCategoryMap cats) with
  | none =>
      rw [hb] at hfind
      exact absurd hfind (by simp)
  | some v0 =>
      rw [hb] at hfind
      simp only [Option.map_some', Option.some.injEq] at hfind
      have hz : v0.amount = 0 :=
        buildCategoryMap_amount_zero cats (k, v0) (mapFind?_some_mem _ _ _ hb)
      rw [← hfind]
      simp [hz]

/-! ### Integer sum lemmas -/

theorem entry_sum_nonneg (l : List Entry) (h : ∀ e ∈ l, 0 ≤ e.amount) :
    0 ≤ (l.map (fun e => e.amount)).sum := by
  induction l with
  | nil => simp
  | cons e rest ih =>
      simp only [List.map_cons, List.sum_cons]
      have h1 := h e (List.mem_cons_self _ _)
      have h2 := ih (fun e' he' => h e' (List.mem_cons_of_mem _ he'))
      omega

theorem entry_sum_filter_le (l : List Entry) (p : Entry → Bool)
    (h : ∀ e ∈ l, 0 ≤ e.amount) :
    ((l.filter p).map (fun e => e.amount)).sum ≤ (l.map (fun e => e.amount)).sum := by
  induction l with
  | nil => simp
  | cons e rest ih =>
      have hrest := ih (fun e' he' => h e' (List.mem_cons_of_mem _ he'))
      have he := h e (List.mem_cons_self _ _)
      cases hp : p e <;>
        simp only [List.filter_cons, hp, Bool.false_eq_true, if_false, if_true,
          List.map_cons, List.sum_cons] <;> omega

theorem entry_sum_split (l : List Entry) (p : Entry → Bool) :
    ((l.filter p).map (fun e => e.amount)).sum
      + ((l.filter (fun e => !(p e))).map (fun e => e.amount)).sum
      = (l.map (fun e => e.amount)).sum := by
  induction l with
  | nil => simp
  | cons e rest ih =>
      cases hp : p e <;>
        simp only [List.filter_cons, hp, Bool.not_true, Bool.not_false,
          Bool.false_eq_true, if_false, if_true, List.map_cons, List.sum_cons] <;> omega

theorem entry_sum_zero_iff (l : List Entry) (h : ∀ e ∈ l, 0 ≤ e.amount) :
    (l.map (fun e => e.amount)).sum = 0 ↔ ∀ e ∈ l, e.amount = 0 := by
  induction l with
  | nil => simp
  | cons e rest ih =>
      have hrest := ih (fun e' he' => h e' (List.mem_cons_of_mem _ he'))
      have he := h e (List.mem_cons_self _ _)
      have hsum := entry_sum_nonneg rest (fun e' he' => h e' (List.mem_cons_of_mem _ he'))
      simp only [List.map_cons, List.sum_cons, List.mem_cons]
      constructor
      · intro h0
        have hez : e.amount = 0 := by omega
        have hz : (rest.map (fun e => e.amount)).sum = 0 := by omega
        intro e' he'
        rcases he' with rfl | hm
        · exact hez
        · exact (hrest.1 hz) e' hm
      · intro hall
        have h1 : e.amount = 0 := hall e (Or.inl rfl)
        have h2 : (rest.map (fun e => e.amount)).sum = 0 :=
          hrest.2 (fun e' he' => hall e' (Or.inr he'))
        omega
/-! ## Claim theorems -/

/-- C9: For the empty entry collection, CSV export returns exactly the
    fixed five-column header line (date, item label, amount, category,
    note) with no data rows. -/
theorem c9_csv_empty_is_header_only (categories : List Category) :
    generateCSV [] categories = "日付,項目名,金額,カテゴリ,メモ\n" := by
  simp [generateCSV, sortByKeyDesc, String.join]

/-- C10: The analytics screen's getCategoryData and the home screen's
    calculateMonthlySummary categoryBreakdown are the same aggregation:
    for every entry list, category list, year and month, projecting the
    breakdown onto (name, color, amount) yields getCategoryData exactly
    (same zero-initialised accumulation, same dropping of unmatched
    entries, same filter to amount > 0, same stable descending sort). -/
theorem c10_aggregations_equivalent (entries : List Entry) (cats : List Category)
    (year month : Int) :
    getCategoryData cats entries
      = (calculateMonthlySummary entries cats year month).categoryBreakdown.map
          (fun b => (⟨b.categoryName, b.categoryColor, b.amount⟩ : CatDatum)) := by
  simp only [getCategoryData, calculateMonthlySummary]
  rw [map_sortByKeyDesc (fun b : BreakdownItem => (⟨b.categoryName, b.categoryColor, b.amount⟩ : CatDatum))
        (fun b => b.amount) (fun d => d.amount) (fun a => rfl),
      map_filter_comm (fun b : BreakdownItem => (⟨b.categoryName, b.categoryColor, b.amount⟩ : CatDatum))
        _ (fun d => 0 < d.amount) (fun a => rfl),
      List.map_map]
  rfl

/-- C8: When the month's total amount is 0 (in particular for the empty
    entry set), every category percentage in the monthly summary is 0:
    the division is guarded and cannot be reached with a zero divisor. -/
theorem c8_zero_total_guards_percentages (entries : List Entry) (cats : List Category)
    (year month : Int) (h : totalAmountOf entries = 0) :
    ∀ b ∈ (calculateMonthlySummary entries cats year month).categoryBreakdown,
      b.percentage = 0 := by
  intro b hb
  simp only [calculateMonthlySummary] at hb
  have hb1 := (sortByKeyDesc_perm (fun b : BreakdownItem => b.amount) _).mem_iff.1 hb
  have hb2 := List.mem_of_mem_filter hb1
  obtain ⟨kv, hkv, rfl⟩ := List.mem_map.1 hb2
  simp [percentageOf, h]

/-- Concrete month whose entries cancel to a zero total. -/
def c8WitnessEntries : List Entry :=
  [{ id := "e1", date := ⟨"2026-01-04", 2026, 1, 0⟩, itemName := "x",
     amount := 5, categoryId := "c1" },
   { id := "e2", date := ⟨"2026-01-05", 2026, 1, 0⟩, itemName := "y",
     amount := -5, categoryId := "c2" }]

/-- Categories for the C8 witness month. -/
def c8WitnessCats : List Category :=
  [⟨"c1", "食費", "#FF6B6B", none, ""⟩, ⟨"c2", "日用品", "#4ECDC4", none, ""⟩]

/-- C8 witness: a month whose entries cancel to total 0 still yields only
    zero percentages (the breakdown is nonempty here because one
    category accumulates a positive amount). -/
theorem c8_zero_total_guards_percentages_witness :
    ((calculateMonthlySummary c8WitnessEntries c8WitnessCats
        2026 1).categoryBreakdown.getD 0 ⟨"", "", "", 0, 0⟩).percentage = 0 :=
  c8_zero_total_guards_percentages c8WitnessEntries c8WitnessCats 2026 1 (by decide)
    ((calculateMonthlySummary c8WitnessEntries c8WitnessCats
        2026 1).categoryBreakdown.getD 0 ⟨"", "", "", 0, 0⟩) (by decide)

/-! ### C6: normalizer resolves by table order -/

theorem find?_eq_get_of_first (p : α → Bool) (l : List α) (i : Nat) (hi : i < l.length)
    (hp : p (l.get ⟨i, hi⟩) = true)
    (hmin : ∀ j, (hj : j < i) → p (l.get ⟨j, Nat.lt_trans hj hi⟩) = false) :
    l.find? p = some (l.get ⟨i, hi⟩) := by
  induction l generalizing i with
  | nil => exact absurd hi (Nat.not_lt_zero i)
  | cons x xs ih =>
      cases i with
      | zero =>
          simp only [List.get] at hp
          rw [List.find?_cons_of_pos _ hp]
          rfl
      | succ n =>
          have hx : p x = false := hmin 0 (Nat.succ_pos n)
          rw [List.find?_cons_of_neg _ (by simp [hx])]
          exact ih n (Nat.lt_of_succ_lt_succ hi) hp
            (fun j hj => hmin (j + 1) (Nat.succ_lt_succ hj))

/-- C6: The Category Normalizer resolves by table order: an absent or
    empty guess, and a guess matching no keyword, yield その他; a guess
    whose first matching table position is `i` (in particular one that
    contains several distinct keywords) yields the canonical name at
    position `i` — the earliest keyword in the table wins. -/
theorem c6_normalizer_table_order :
    normalizeCategoryName none = "その他" ∧
    normalizeCategoryName (some "") = "その他" ∧
    (∀ s, ¬ s = "" →
      (∀ kv ∈ categoryTable, jsIncludes (jsTrim (jsToLower s)) (jsToLower kv.1) = false) →
      normalizeCategoryName (some s) = "その他") ∧
    (∀ s i, ¬ s = "" → ∀ hi : i < categoryTable.length,
      jsIncludes (jsTrim (jsToLower s)) (jsToLower (categoryTable.get ⟨i, hi⟩).1) = true →
      (∀ j, (hj : j < i) →
        jsIncludes (jsTrim (jsToLower s)) (jsToLower (categoryTable.get ⟨j, Nat.lt_trans hj hi⟩).1) = false) →
      normalizeCategoryName (some s) = (categoryTable.get ⟨i, hi⟩).2) := by
  refine ⟨rfl, rfl, ?_, ?_⟩
  · intro s hs hnone
    have hfind : categoryTable.find?
        (fun kv => jsIncludes (jsTrim (jsToLower s)) (jsToLower kv.1)) = none :=
      List.find?_eq_none.2 (fun kv hkv => by simp [hnone kv hkv])
    simp [normalizeCategoryName, hs, hfind]
  · intro s i hs hi hp hmin
    have hfind := find?_eq_get_of_first
      (fun kv => jsIncludes (jsTrim (jsToLower s)) (jsToLower kv.1))
      categoryTable i hi hp hmin
    simp [normalizeCategoryName, hs, hfind]

/-- C6 witness: "食材と雑貨" contains both the keyword 食材 (table
    position 3, canonical 食費) and the keyword 雑貨 (table position 7,
    canonical 日用品); the earlier table entry wins. -/
theorem c6_normalizer_table_order_witness :
    normalizeCategoryName (some "食材と雑貨") = "食費" ∧
    jsIncludes (jsTrim (jsToLower "食材と雑貨")) (jsToLower "食材") = true ∧
    jsIncludes (jsTrim (jsToLower "食材と雑貨")) (jsToLower "雑貨") = true :=
  ⟨c6_normalizer_table_order.2.2.2 "食材と雑貨" 3 (by decide) (by decide)
      (by decide) (by decide),
   by decide, by decide⟩

/-! ### C7: the 6-month trend series -/

theorem resolveMonth_spec (y m i : Int) (h1 : 1 ≤ m) (h2 : m ≤ 12)
    (hi0 : 0 ≤ i) (hi1 : i ≤ 11) :
    1 ≤ (resolveMonth y m i).2 ∧ (resolveMonth y m i).2 ≤ 12 ∧
      12 * (resolveMonth y m i).1 + (resolveMonth y m i).2 = 12 * y + m - i := by
  by_cases h : m - i ≤ 0 <;> simp [resolveMonth, h] <;> omega

theorem resolveMonth_eq (y m i : Int) (h1 : 1 ≤ m) (h2 : m ≤ 12)
    (hi0 : 0 ≤ i) (hi1 : i ≤ 11) (Y M : Int) (hM1 : 1 ≤ M) (hM2 : M ≤ 12)
    (hlin : 12 * Y + M = 12 * y + m - i) :
    (resolveMonth y m i).1 = Y ∧ (resolveMonth y m i).2 = M := by
  obtain ⟨hA, hB, hC⟩ := resolveMonth_spec y m i h1 h2 hi0 hi1
  constructor <;> omega

/-- C7: For every reference year and 1-based reference month, the trend
    series has exactly 6 points (and 6 labels) ordered oldest to newest:
    the point at position j is the amount total of the unique calendar
    month (Y, M) with 1 ≤ M ≤ 12 and 12·Y + M = 12·y + m − (5 − j),
    i.e. one point per month from 5 months before the reference month
    through the reference month, wrapping year boundaries; its label is
    the month number. -/
theorem c7_trend_six_points (entries : List Entry) (y m : Int)
    (h1 : 1 ≤ m) (h2 : m ≤ 12) (j : Nat) (hj : j < 6) (Y M : Int)
    (hM1 : 1 ≤ M) (hM2 : M ≤ 12)
    (hlin : 12 * Y + M = 12 * y + m - (5 - (j : Int))) :
    (getMonthlyTrendData entries y m).1.length = 6 ∧
    (getMonthlyTrendData entries y m).2.length = 6 ∧
    (getMonthlyTrendData entries y m).1.getD j 0
      = totalAmountOf (getEntriesByMonth entries Y M) ∧
    (getMonthlyTrendData entries y m).2.getD j "" = toString M ++ "月" := by
  refine ⟨by simp [getMonthlyTrendData], by simp [getMonthlyTrendData], ?_, ?_⟩
  · interval_cases j <;>
    · simp only [Nat.cast_ofNat, Nat.cast_zero, Nat.cast_one] at hlin
      simp only [getMonthlyTrendData, List.map_cons, List.map_nil,
        List.getD_cons_zero, List.getD_cons_succ]
      first
      | (obtain ⟨hY, hM'⟩ := resolveMonth_eq y m 5 h1 h2 (by omega) (by omega)
            Y M hM1 hM2 (by omega)
         rw [hY, hM'])
      | (obtain ⟨hY, hM'⟩ := resolveMonth_eq y m 4 h1 h2 (by omega) (by omega)
            Y M hM1 hM2 (by omega)
         rw [hY, hM'])
      | (obtain ⟨hY, hM'⟩ := resolveMonth_eq y m 3 h1 h2 (by omega) (by omega)
            Y M hM1 hM2 (by omega)
         rw [hY, hM'])
      | (obtain ⟨hY, hM'⟩ := resolveMonth_eq y m 2 h1 h2 (by omega) (by omega)
            Y M hM1 hM2 (by omega)
         rw [hY, hM'])
      | (obtain ⟨hY, hM'⟩ := resolveMonth_eq y m 1 h1 h2 (by omega) (by omega)
            Y M hM1 hM2 (by omega)
         rw [hY, hM'])
      | (obtain ⟨hY, hM'⟩ := resolveMonth_eq y m 0 h1 h2 (by omega) (by omega)
            Y M hM1 hM2 (by omega)
         rw [hY, hM'])
  · interval_cases j <;>
    · simp only [Nat.cast_ofNat, Nat.cast_zero, Nat.cast_one] at hlin
      simp only [getMonthlyTrendData, List.map_cons, List.map_nil,
        List.getD_cons_zero, List.getD_cons_succ]
      first
      | (obtain ⟨hY, hM'⟩ := resolveMonth_eq y m 5 h1 h2 (by omega) (by omega)
            Y M hM1 hM2 (by omega)
         rw [hM'])
      | (obtain ⟨hY, hM'⟩ := resolveMonth_eq y m 4 h1 h2 (by omega) (by omega)
            Y M hM1 hM2 (by omega)
         rw [hM'])
      | (obtain ⟨hY, hM'⟩ := resolveMonth_eq y m 3 h1 h2 (by omega) (by omega)
            Y M hM1 hM2 (by omega)
         rw [hM'])
      | (obtain ⟨hY, hM'⟩ := resolveMonth_eq y m 2 h1 h2 (by omega) (by omega)
            Y M hM1 hM2 (by omega)
         rw [hM'])
      | (obtain ⟨hY, hM'⟩ := resolveMonth_eq y m 1 h1 h2 (by omega) (by omega)
            Y M hM1 hM2 (by omega)
         rw [hM'])
      | (obtain ⟨hY, hM'⟩ := resolveMonth_eq y m 0 h1 h2 (by omega) (by omega)
            Y M hM1 hM2 (by omega)
         rw [hM'])

/-- Concrete entries for the C7 witness: one expense in August 2025. -/
def c7WitnessEntries : List Entry :=
  [{ id := "e1", date := ⟨"2025-08-04", 2025, 8, 0⟩, itemName := "x",
     amount := 3, categoryId := "c1" }]

/-- C7 witness: anchored at (2026, 1), the oldest of the 6 points is
    August 2025 — the year boundary wraps. -/
theorem c7_trend_six_points_witness :
    (getMonthlyTrendData c7WitnessEntries 2026 1).1.length = 6 ∧
    (getMonthlyTrendData c7WitnessEntries 2026 1).2.length = 6 ∧
    (getMonthlyTrendData c7WitnessEntries 2026 1).1.getD 0 0
      = totalAmountOf (getEntriesByMonth c7WitnessEntries 2025 8) ∧
    (getMonthlyTrendData c7WitnessEntries 2026 1).2.getD 0 "" = toString (8 : Int) ++ "月" :=
  c7_trend_six_points c7WitnessEntries 2026 1 (by decide) (by decide) 0 (by decide)
    2025 8 (by decide) (by decide) (by decide)

/-! ### C1 and C2: breakdown sums and percentages -/

/-- Characterisation of a breakdown element: its amount is the total of
    the entries referencing its category id, its percentage is the
    guarded ratio of that amount to the month total, and it survived the
    `amount > 0` filter. -/
theorem breakdown_mem_char (entries : List Entry) (cats : List Category) (y mo : Int)
    (b : BreakdownItem)
    (hb : b ∈ (calculateMonthlySummary entries cats y mo).categoryBreakdown) :
    b.amount = entrySum entries b.categoryId ∧
    b.percentage = percentageOf (totalAmountOf entries) b.amount ∧
    0 < b.amount := by
  simp only [calculateMonthlySummary] at hb
  have hb1 := (sortByKeyDesc_perm (fun b : BreakdownItem => b.amount) _).mem_iff.1 hb
  have hbp := List.of_mem_filter hb1
  have hb2 := List.mem_of_mem_filter hb1
  obtain ⟨kv, hkv, rfl⟩ := List.mem_map.1 hb2
  refine ⟨accumulated_amount_eq entries cats kv.1 kv.2 hkv, rfl, ?_⟩
  simpa using hbp

theorem sum_filter_eq_sum {β : Type} [AddCommMonoid β] (p : α → Bool) (f : α → β)
    (l : List α) (h : ∀ x ∈ l, p x = false → f x = 0) :
    ((l.filter p).map f).sum = (l.map f).sum := by
  induction l with
  | nil => rfl
  | cons x xs ih =>
      have hxs := ih (fun x' hx' => h x' (List.mem_cons_of_mem _ hx'))
      cases hp : p x
      · have hz := h x (List.mem_cons_self _ _) hp
        simp [List.filter_cons, hp, hz, hxs]
      · simp [List.filter_cons, hp, hxs]

/-- The breakdown's amounts sum to the total of exactly the entries whose
    category id is known (unmatched entries are dropped). -/
theorem breakdown_amount_sum (entries : List Entry) (cats : List Category) (y mo : Int)
    (h : ∀ e ∈ entries, 0 ≤ e.amount) :
    ((calculateMonthlySummary entries cats y mo).categoryBreakdown.map
        (fun b => b.amount)).sum
      = ((entries.filter (fun e => e.categoryId ∈ catIds cats)).map
          (fun e => e.amount)).sum := by
  simp only [calculateMonthlySummary]
  set m := accumulateEntries (buildCategoryMap cats) entries with hm
  set pre := (m.map (fun kv =>
      ({ categoryId := kv.1, categoryName := kv.2.name, categoryColor := kv.2.color,
         amount := kv.2.amount,
         percentage := percentageOf (totalAmountOf entries) kv.2.amount } : BreakdownItem)))
    with hpre
  have hsort : ((sortByKeyDesc (fun b : BreakdownItem => b.amount)
      (pre.filter (fun b => 0 < b.amount))).map (fun b => b.amount)).sum
      = ((pre.filter (fun b => 0 < b.amount)).map (fun b => b.amount)).sum :=
    ((sortByKeyDesc_perm (fun b : BreakdownItem => b.amount) _).map _).sum_eq
  rw [hsort]
  have hfil : ((pre.filter (fun b => 0 < b.amount)).map (fun b => b.amount)).sum
      = (pre.map (fun b => b.amount)).sum := by
    refine sum_filter_eq_sum _ _ _ (fun b hbmem hbf => ?_)
    rw [hpre] at hbmem
    obtain ⟨kv, hkv, rfl⟩ := List.mem_map.1 hbmem
    have hamt : kv.2.amount = entrySum entries kv.1 :=
      accumulated_amount_eq entries cats kv.1 kv.2 hkv
    have hnn : 0 ≤ kv.2.amount := by
      rw [hamt]
      exact entry_sum_nonneg _ (fun e he => h e (List.mem_of_mem_filter he))
    simp only [decide_eq_false_iff_not, not_lt] at hbf
    show kv.2.amount = 0
    omega
  rw [hfil, hpre, List.map_map]
  have hvals : (m.map ((fun b : BreakdownItem => b.amount) ∘ (fun kv =>
      ({ categoryId := kv.1, categoryName := kv.2.name, categoryColor := kv.2.color,
         amount := kv.2.amount,
         percentage := percentageOf (totalAmountOf entries) kv.2.amount } : BreakdownItem)))).sum
      = sumAmounts m := rfl
  rw [hvals, hm, accumulateEntries_sumAmounts]
  have hzero : sumAmounts (buildCategoryMap cats) = 0 :=
    List.sum_eq_zero (fun x hx => by
      obtain ⟨kv, hkv, rfl⟩ := List.mem_map.1 hx
      exact buildCategoryMap_amount_zero cats kv hkv)
  rw [hzero, zero_add]
  have hcong : entries.filter (fun e => e.categoryId ∈ mapKeys (buildCategoryMap cats))
      = entries.filter (fun e => e.categoryId ∈ catIds cats) := by
    refine List.filter_congr (fun e he => ?_)
    exact decide_eq_decide.2 (buildCategoryMap_mem_keys cats e.categoryId)
  rw [hcong]

/-- C2 (amended): under the data-model invariant that amounts are
    non-negative, the breakdown's amounts sum to at most the total, with
    equality iff every entry carrying a positive amount references a
    known category id (zero-amount unmatched entries do not disturb
    equality; the claim's unqualified "every entry" is refuted below). -/
theorem c2_breakdown_sum_le_total (entries : List Entry) (cats : List Category)
    (y mo : Int) (h : ∀ e ∈ entries, 0 ≤ e.amount) :
    ((calculateMonthlySummary entries cats y mo).categoryBreakdown.map
        (fun b => b.amount)).sum
      ≤ (calculateMonthlySummary entries cats y mo).totalAmount ∧
    (((calculateMonthlySummary entries cats y mo).categoryBreakdown.map
        (fun b => b.amount)).sum
        = (calculateMonthlySummary entries cats y mo).totalAmount ↔
      ∀ e ∈ entries, 0 < e.amount → e.categoryId ∈ catIds cats) := by
  have htot : (calculateMonthlySummary entries cats y mo).totalAmount
      = (entries.map (fun e => e.amount)).sum := rfl
  rw [breakdown_amount_sum entries cats y mo h, htot]
  constructor
  · exact entry_sum_filter_le entries _ h
  · have hsplit := entry_sum_split entries (fun e => e.categoryId ∈ catIds cats)
    have hnn : ∀ e ∈ entries.filter (fun e => !(decide (e.categoryId ∈ catIds cats))),
        0 ≤ e.amount := fun e he => h e (List.mem_of_mem_filter he)
    have hzero := entry_sum_zero_iff _ hnn
    constructor
    · intro heq e he hpos
      by_contra hmem
      have hsumz : ((entries.filter (fun e => !(decide (e.categoryId ∈ catIds cats)))).map
          (fun e => e.amount)).sum = 0 := by omega
      have := (hzero.1 hsumz) e (by
        rw [List.mem_filter]
        exact ⟨he, by simp [hmem]⟩)
      omega
    · intro hall
      have hsumz : ((entries.filter (fun e => !(decide (e.categoryId ∈ catIds cats)))).map
          (fun e => e.amount)).sum = 0 := by
        refine hzero.2 (fun e he => ?_)
        rw [List.mem_filter] at he
        have h1 := h e he.1
        have h2 : ¬ e.categoryId ∈ catIds cats := by simpa using he.2
        rcases lt_or_eq_of_le h1 with hl | hr
        · exact absurd (hall e he.1 hl) h2
        · omega
      omega

/-- Entries for the C2 counterexample: one zero-amount entry whose
    category reference matches no known category. -/
def c2CtxEntries : List Entry :=
  [{ id := "e1", date := ⟨"2026-01-04", 2026, 1, 0⟩, itemName := "x",
     amount := 0, categoryId := "zzz" }]

/-- Categories for the C2 counterexample. -/
def c2CtxCats : List Category :=
  [⟨"c1", "食費", "#FF6B6B", none, ""⟩]

/-- C2 counterexample: the claimed "equality iff every entry's category
    id matches a known category" fails — here the breakdown sum equals
    the total (both 0) although the sole entry's category id "zzz"
    matches no known category. -/
theorem c2_breakdown_sum_counterexample :
    ((calculateMonthlySummary c2CtxEntries c2CtxCats 2026 1).categoryBreakdown.map
        (fun b => b.amount)).sum
      = (calculateMonthlySummary c2CtxEntries c2CtxCats 2026 1).totalAmount ∧
    ¬ (∀ e ∈ c2CtxEntries, e.categoryId ∈ catIds c2CtxCats) := by
  constructor
  · decide
  · decide

/-- Entries for the C2 witness month (one matched, one unmatched with
    positive amount, so the inequality is strict). -/
def c2WitEntries : List Entry :=
  [{ id := "e1", date := ⟨"2026-01-04", 2026, 1, 0⟩, itemName := "x",
     amount := 120, categoryId := "c1" },
   { id := "e2", date := ⟨"2026-01-05", 2026, 1, 0⟩, itemName := "y",
     amount := 30, categoryId := "zzz" }]

/-- C2 witness: the amended inequality instantiated on a concrete month. -/
theorem c2_breakdown_sum_le_total_witness :
    ((calculateMonthlySummary c2WitEntries c2CtxCats 2026 1).categoryBreakdown.map
        (fun b => b.amount)).sum
      ≤ (calculateMonthlySummary c2WitEntries c2CtxCats 2026 1).totalAmount :=
  (c2_breakdown_sum_le_total c2WitEntries c2CtxCats 2026 1 (by decide)).1

theorem sum_map_intcast_mul (l : List BreakdownItem) (c : ℚ) :
    (l.map (fun b => (b.amount : ℚ) * c)).sum
      = (((l.map (fun b => b.amount)).sum : Int) : ℚ) * c := by
  induction l with
  | nil => simp
  | cons b rest ih =>
      simp only [List.map_cons, List.sum_cons, ih]
      push_cast
      ring

/-- C1 (amended): under the data-model invariant that amounts are
    non-negative, every percentage lies in [0, 100]; and when every
    entry references a known category id, a non-empty breakdown's
    percentages sum to exactly 100. (When unmatched entries carry
    positive amounts, the sum falls below 100 by their share — the
    unqualified claim is refuted below.) -/
theorem c1_percentage_bounds_and_sum (entries : List Entry) (cats : List Category)
    (y mo : Int) (h : ∀ e ∈ entries, 0 ≤ e.amount) :
    (∀ b ∈ (calculateMonthlySummary entries cats y mo).categoryBreakdown,
        0 ≤ b.percentage ∧ b.percentage ≤ 100) ∧
    ((∀ e ∈ entries, e.categoryId ∈ catIds cats) →
      (calculateMonthlySummary entries cats y mo).categoryBreakdown ≠ [] →
      ((calculateMonthlySummary entries cats y mo).categoryBreakdown.map
          (fun b => b.percentage)).sum = 100) := by
  have hboundA : ∀ b ∈ (calculateMonthlySummary entries cats y mo).categoryBreakdown,
      0 ≤ b.amount ∧ b.amount ≤ totalAmountOf entries := by
    intro b hb
    obtain ⟨hamt, -, -⟩ := breakdown_mem_char entries cats y mo b hb
    constructor
    · rw [hamt]
      exact entry_sum_nonneg _ (fun e he => h e (List.mem_of_mem_filter he))
    · rw [hamt]
      exact entry_sum_filter_le entries _ h
  constructor
  · intro b hb
    obtain ⟨-, hpct, -⟩ := breakdown_mem_char entries cats y mo b hb
    obtain ⟨hnn, hle⟩ := hboundA b hb
    rw [hpct, percentageOf]
    by_cases hT : 0 < totalAmountOf entries
    · rw [if_pos hT]
      have hTq : (0 : ℚ) < (totalAmountOf entries : ℚ) := by exact_mod_cast hT
      constructor
      · have h1 : (0 : ℚ) ≤ (b.amount : ℚ) := by exact_mod_cast hnn
        positivity
      · have h1 : (b.amount : ℚ) ≤ (totalAmountOf entries : ℚ) := by exact_mod_cast hle
        have h2 : (b.amount : ℚ) / (totalAmountOf entries : ℚ) ≤ 1 :=
          (div_le_one hTq).2 h1
        calc (b.amount : ℚ) / (totalAmountOf entries : ℚ) * 100
            ≤ 1 * 100 := by
              exact mul_le_mul_of_nonneg_right h2 (by norm_num)
          _ = 100 := by norm_num
    · rw [if_neg hT]
      norm_num
  · intro hmatched hne
    obtain ⟨b0, hb0⟩ := List.exists_mem_of_ne_nil _ hne
    obtain ⟨-, -, hb0pos⟩ := breakdown_mem_char entries cats y mo b0 hb0
    have hb0le := (hboundA b0 hb0).2
    have hT : 0 < totalAmountOf entries := by omega
    have hTq : ((totalAmountOf entries : Int) : ℚ) ≠ 0 := by
      exact_mod_cast (by omega : totalAmountOf entries ≠ 0)
    have hmapeq : (calculateMonthlySummary entries cats y mo).categoryBreakdown.map
          (fun b => b.percentage)
        = (calculateMonthlySummary entries cats y mo).categoryBreakdown.map
          (fun b => (b.amount : ℚ) * (100 / (totalAmountOf entries : ℚ))) := by
      refine List.map_congr_left (fun b hb => ?_)
      obtain ⟨-, hpct, -⟩ := breakdown_mem_char entries cats y mo b hb
      rw [hpct, percentageOf, if_pos hT]
      field_simp
    rw [hmapeq, sum_map_intcast_mul]
    have hsum : ((calculateMonthlySummary entries cats y mo).categoryBreakdown.map
        (fun b => b.amount)).sum = totalAmountOf entries := by
      rw [breakdown_amount_sum entries cats y mo h]
      have hfe : entries.filter (fun e => e.categoryId ∈ catIds cats) = entries :=
        List.filter_eq_self.2 (fun e he => by simpa using hmatched e he)
      rw [hfe]
      rfl
    rw [hsum]
    field_simp

/-- Entries for the C1 counterexample: 1 yen matched, 99 yen in a
    category unknown to the store. -/
def c1CtxEntries : List Entry :=
  [{ id := "e1", date := ⟨"2026-01-04", 2026, 1, 0⟩, itemName := "x",
     amount := 1, categoryId := "c1" },
   { id := "e2", date := ⟨"2026-01-05", 2026, 1, 0⟩, itemName := "y",
     amount := 99, categoryId := "zzz" }]

/-- Categories for the C1 counterexample. -/
def c1CtxCats : List Category :=
  [⟨"c1", "食費", "#FF6B6B", none, ""⟩]

/-- C1 counterexample: a non-empty breakdown whose percentages sum to 1,
    not ≈ 100 — the 99 unmatched yen count toward the total but not the
    breakdown, so no rounding tolerance can save the claimed identity. -/
theorem c1_percentage_sum_counterexample :
    (calculateMonthlySummary c1CtxEntries c1CtxCats 2026 1).categoryBreakdown ≠ [] ∧
    ((calculateMonthlySummary c1CtxEntries c1CtxCats 2026 1).categoryBreakdown.map
        (fun b => b.percentage)).sum = 1 ∧
    ¬ ((calculateMonthlySummary c1CtxEntries c1CtxCats 2026 1).categoryBreakdown.map
        (fun b => b.percentage)).sum = 100 := by
  have hbd : (calculateMonthlySummary c1CtxEntries c1CtxCats 2026 1).categoryBreakdown
      = [⟨"c1", "食費", "#FF6B6B", 1, percentageOf 100 1⟩] := rfl
  refine ⟨by rw [hbd]; simp, ?_, ?_⟩
  · rw [hbd]
    simp [percentageOf]
  · rw [hbd]
    simp [percentageOf]

/-- Entries for the C1 witness month: all entries matched, total 4 yen. -/
def c1WitEntries : List Entry :=
  [{ id := "e1", date := ⟨"2026-01-04", 2026, 1, 0⟩, itemName := "x",
     amount := 1, categoryId := "c1" },
   { id := "e2", date := ⟨"2026-01-05", 2026, 1, 0⟩, itemName := "y",
     amount := 3, categoryId := "c1" }]

/-- C1 witness: with every entry matched, the percentages of the
    (non-empty) breakdown sum to exactly 100. -/
theorem c1_percentage_sum_witness :
    ((calculateMonthlySummary c1WitEntries c1CtxCats 2026 1).categoryBreakdown.map
        (fun b => b.percentage)).sum = 100 :=
  (c1_percentage_bounds_and_sum c1WitEntries c1CtxCats 2026 1 (by decide)).2
    (by decide) (by decide)

/-! ### C4: behaviour of update/delete on a missing identifier -/

theorem updateEntry_not_found (entries : List Entry) (eid : String) (p : EntryPatch)
    (now : String) (he : ∀ e ∈ entries, ¬ e.id = eid) :
    updateEntry entries eid p now = .error "エントリーが見つかりません" := by
  induction entries with
  | nil => rfl
  | cons e rest ih =>
      simp only [updateEntry, if_neg (he e (List.mem_cons_self _ _)),
        ih (fun e' h' => he e' (List.mem_cons_of_mem _ h'))]
      rfl

theorem updateCategory_not_found (cats : List Category) (cid : String)
    (cp : CategoryPatch) (hc : ∀ c ∈ cats, ¬ c.id = cid) :
    updateCategory cats cid cp = .error "カテゴリが見つかりません" := by
  induction cats with
  | nil => rfl
  | cons c rest ih =>
      simp only [updateCategory, if_neg (hc c (List.mem_cons_self _ _)),
        ih (fun c' h' => hc c' (List.mem_cons_of_mem _ h'))]
      rfl

/-- C4 (amended): on a missing identifier the update operations raise
    the local not-found error (so nothing is saved and the collection is
    untouched), but the delete operations raise no error at all — they
    filter, succeed, and leave the collection unchanged. The claim's
    assertion that delete also raises not-found is refuted below. -/
theorem c4_missing_id_behaviour (entries : List Entry) (cats : List Category)
    (eid cid : String) (p : EntryPatch) (cp : CategoryPatch) (now : String)
    (he : ∀ e ∈ entries, ¬ e.id = eid) (hc : ∀ c ∈ cats, ¬ c.id = cid) :
    updateEntry entries eid p now = .error "エントリーが見つかりません" ∧
    deleteEntry entries eid = .ok entries ∧
    updateCategory cats cid cp = .error "カテゴリが見つかりません" ∧
    deleteCategory cats cid = .ok cats := by
  refine ⟨updateEntry_not_found entries eid p now he, ?_,
    updateCategory_not_found cats cid cp hc, ?_⟩
  · simp only [deleteEntry, Except.ok.injEq]
    exact List.filter_eq_self.2 (fun e hmem => by simp [he e hmem])
  · simp only [deleteCategory, Except.ok.injEq]
    exact List.filter_eq_self.2 (fun c hmem => by simp [hc c hmem])

/-- A concrete stored entry for the C4 theorems. -/
def c4CtxEntry : Entry :=
  { id := "a", date := ⟨"2026-01-04", 2026, 1, 0⟩, itemName := "x",
    amount := 1, categoryId := "c1" }

/-- A concrete stored category for the C4 theorems. -/
def c4CtxCats : List Category :=
  [⟨"c1", "食費", "#FF6B6B", none, ""⟩]

/-- C4 counterexample: deleting a missing identifier does NOT raise the
    not-found error — it succeeds, returning the collection unchanged
    (deleteEntry never reaches a throw at all). -/
theorem c4_delete_missing_id_counterexample :
    deleteEntry [c4CtxEntry] "zzz" = Except.ok [c4CtxEntry] ∧
    deleteCategory c4CtxCats "zzz" = Except.ok c4CtxCats := by
  constructor <;> rfl

/-- C4 witness: the amended behaviour on a concrete store and missing id. -/
theorem c4_missing_id_behaviour_witness :
    updateEntry [c4CtxEntry] "zzz" {} "now" = Except.error "エントリーが見つかりません" ∧
    deleteEntry [c4CtxEntry] "zzz" = Except.ok [c4CtxEntry] ∧
    updateCategory c4CtxCats "zzz" {} = Except.error "カテゴリが見つかりません" ∧
    deleteCategory c4CtxCats "zzz" = Except.ok c4CtxCats :=
  c4_missing_id_behaviour [c4CtxEntry] c4CtxCats "zzz" "zzz" {} {} "now"
    (by decide) (by decide)

/-! ### C5: identifier uniqueness across store operations -/

theorem updateEntry_ok_ids (entries : List Entry) (eid : String) (p : EntryPatch)
    (now : String) (hp : p.id = none) (l : List Entry)
    (h : updateEntry entries eid p now = .ok l) :
    l.map (fun e => e.id) = entries.map (fun e => e.id) := by
  induction entries generalizing l with
  | nil => simp [updateEntry] at h
  | cons e rest ih =>
      by_cases hid : e.id = eid
      · simp only [updateEntry, if_pos hid, Except.ok.injEq] at h
        subst h
        simp [applyEntryPatch, hp]
      · simp only [updateEntry, if_neg hid] at h
        cases hrec : updateEntry rest eid p now with
        | error msg => rw [hrec] at h; exact absurd h (by simp [Except.map])
        | ok l' =>
            rw [hrec] at h
            simp only [Except.map, Except.ok.injEq] at h
            subst h
            simp [ih l' hrec]

theorem updateCategory_ok_ids (cats : List Category) (cid : String) (cp : CategoryPatch)
    (hp : cp.id = none) (l : List Category)
    (h : updateCategory cats cid cp = .ok l) :
    l.map (fun c => c.id) = cats.map (fun c => c.id) := by
  induction cats generalizing l with
  | nil => simp [updateCategory] at h
  | cons c rest ih =>
      by_cases hid : c.id = cid
      · simp only [updateCategory, if_pos hid, Except.ok.injEq] at h
        subst h
        simp [applyCategoryPatch, hp]
      · simp only [updateCategory, if_neg hid] at h
        cases hrec : updateCategory rest cid cp with
        | error msg => rw [hrec] at h; exact absurd h (by simp [Except.map])
        | ok l' =>
            rw [hrec] at h
            simp only [Except.map, Except.ok.injEq] at h
            subst h
            simp [ih l' hrec]

/-- C5 (amended): delete always preserves identifier uniqueness; update
    preserves it whenever the patch does not change the identifier; add
    preserves it exactly when the added element's identifier is fresh —
    the operations themselves perform no uniqueness check, so adding a
    colliding identifier violates the invariant (refuted claim below). -/
theorem c5_id_uniqueness_preserved (entries : List Entry) (cats : List Category)
    (e : Entry) (c : Category) (eid cid : String) (p : EntryPatch) (cp : CategoryPatch)
    (now : String)
    (he : (entries.map (fun e => e.id)).Nodup) (hc : (cats.map (fun c => c.id)).Nodup)
    (hef : ¬ e.id ∈ entries.map (fun e => e.id))
    (hcf : ¬ c.id ∈ cats.map (fun c => c.id))
    (hp : p.id = none) (hcp : cp.id = none) :
    ((addEntry entries e).map (fun e => e.id)).Nodup ∧
    (∀ l, updateEntry entries eid p now = .ok l → (l.map (fun e => e.id)).Nodup) ∧
    (∀ l, deleteEntry entries eid = .ok l → (l.map (fun e => e.id)).Nodup) ∧
    ((addCategory cats c).map (fun c => c.id)).Nodup ∧
    (∀ l, updateCategory cats cid cp = .ok l → (l.map (fun c => c.id)).Nodup) ∧
    (∀ l, deleteCategory cats cid = .ok l → (l.map (fun c => c.id)).Nodup) := by
  refine ⟨?_, ?_, ?_, ?_, ?_, ?_⟩
  · simp only [addEntry, List.map_append, List.map_cons, List.map_nil]
    refine List.Nodup.append he (List.nodup_singleton _) ?_
    rw [List.disjoint_singleton]
    exact hef
  · intro l hl
    rw [updateEntry_ok_ids entries eid p now hp l hl]
    exact he
  · intro l hl
    simp only [deleteEntry, Except.ok.injEq] at hl
    subst hl
    exact ((List.filter_sublist entries).map (fun e => e.id)).nodup he
  · simp only [addCategory, List.map_append, List.map_cons, List.map_nil]
    refine List.Nodup.append hc (List.nodup_singleton _) ?_
    rw [List.disjoint_singleton]
    exact hcf
  · intro l hl
    rw [updateCategory_ok_ids cats cid cp hcp l hl]
    exact hc
  · intro l hl
    simp only [deleteCategory, Except.ok.injEq] at hl
    subst hl
    exact ((List.filter_sublist cats).map (fun c => c.id)).nodup hc

/-- Two distinct entries sharing the identifier "a". -/
def c5CtxEntryA : Entry :=
  { id := "a", date := ⟨"2026-01-04", 2026, 1, 0⟩, itemName := "x",
    amount := 1, categoryId := "c1" }

/-- Second entry with the same identifier as `c5CtxEntryA`. -/
def c5CtxEntryB : Entry :=
  { id := "a", date := ⟨"2026-01-05", 2026, 1, 0⟩, itemName := "y",
    amount := 2, categoryId := "c1" }

/-- C5 counterexample: addEntry performs no uniqueness check — pushing an
    entry whose identifier already exists leaves the store with a
    duplicated identifier, violating the claimed invariant. -/
theorem c5_add_duplicate_counterexample :
    (([c5CtxEntryA].map (fun e => e.id)).Nodup) ∧
    ¬ (((addEntry [c5CtxEntryA] c5CtxEntryB).map (fun e => e.id)).Nodup) := by
  constructor <;> decide

/-- A fresh entry for the C5 witness. -/
def c5CtxEntryC : Entry :=
  { id := "b", date := ⟨"2026-01-05", 2026, 1, 0⟩, itemName := "y",
    amount := 2, categoryId := "c1" }

/-- Category store for the C5 witness. -/
def c5CtxCats : List Category :=
  [⟨"c1", "食費", "#FF6B6B", none, ""⟩]

/-- C5 witness: the amended preservation statement on concrete stores
    with a fresh identifier. -/
theorem c5_id_uniqueness_preserved_witness :
    ((addEntry [c5CtxEntryA] c5CtxEntryC).map (fun e => e.id)).Nodup :=
  (c5_id_uniqueness_preserved [c5CtxEntryA] c5CtxCats c5CtxEntryC
    ⟨"c2", "日用品", "#4ECDC4", none, ""⟩ "zzz" "zzz" {} {} "now"
    (by decide) (by decide) (by decide) (by decide) (by decide) (by decide)).1

/-! ### C3: what ingestion actually stores for the category field -/

/-- The entries the ingestion loop constructs from position `n` onward. -/
def mkEntries (mkId : Nat → String) (imageUri now : String) :
    Nat → List AIItem → List Entry
  | _, [] => []
  | n, item :: rest =>
      mkEntryFromItem mkId imageUri now n item :: mkEntries mkId imageUri now (n + 1) rest

theorem ingestLoop_eq_append (mkId : Nat → String) (uri now : String)
    (items : List AIItem) (store : List Entry) (n : Nat) :
    ingestLoop mkId uri now items store n = store ++ mkEntries mkId uri now n items := by
  induction items generalizing store n with
  | nil => simp [ingestLoop, mkEntries]
  | cons it rest ih =>
      simp only [ingestLoop, mkEntries, addEntry]
      rw [ih]
      simp

theorem mkEntries_length (mkId : Nat → String) (uri now : String)
    (n : Nat) (items : List AIItem) :
    (mkEntries mkId uri now n items).length = items.length := by
  induction items generalizing n with
  | nil => rfl
  | cons it rest ih => simp [mkEntries, ih]

theorem mkEntries_getD (mkId : Nat → String) (uri now : String)
    (items : List AIItem) (n j : Nat) (hj : j < items.length) (d : Entry) (d' : AIItem) :
    (mkEntries mkId uri now n items).getD j d
      = mkEntryFromItem mkId uri now (n + j) (items.getD j d') := by
  induction items generalizing n j with
  | nil => exact absurd hj (Nat.not_lt_zero j)
  | cons it rest ih =>
      cases j with
      | zero => simp [mkEntries]
      | succ j' =>
          have hj' : j' < rest.length := Nat.lt_of_succ_lt_succ hj
          simp only [mkEntries, List.getD_cons_succ]
          rw [ih (n + 1) j' hj']
          congr 1
          omega

theorem getD_append_offset (l1 l2 : List α) (j : Nat) (d : α) :
    (l1 ++ l2).getD (l1.length + j) d = l2.getD j d := by
  induction l1 with
  | nil => simp
  | cons x xs ih =>
      have hidx : (x :: xs).length + j = (xs.length + j) + 1 := by
        simp only [List.length_cons]
        omega
      rw [hidx, List.cons_append, List.getD_cons_succ, ih]

/-- C3 (amended): on a successful analysis with N ≥ 1 line items the
    ingestion flow writes exactly N entries, but it does NOT apply the
    Category Normalizer: each stored entry's category field is the raw
    `suggestedCategory || 'その他'` (the JS falsy-or), not
    normalizeCategoryName of the guess. -/
theorem c3_ingestion_stores_raw_guess (mkId : Nat → String) (uri now : String)
    (result : AIAnalysisResult) (store : List Entry)
    (hne : ¬ result.entries = []) :
    (analyzeImage mkId uri now result store).length
        = store.length + result.entries.length ∧
    (∀ j, j < result.entries.length → ∀ d : Entry, ∀ d' : AIItem,
      ((analyzeImage mkId uri now result store).getD (store.length + j) d).categoryId
        = jsOrElse ((result.entries.getD j d').suggestedCategory) "その他") := by
  have hlen : ¬ result.entries.length = 0 := fun h => hne (List.length_eq_zero.1 h)
  have hrw : analyzeImage mkId uri now result store
      = store ++ mkEntries mkId uri now 0 result.entries := by
    rw [analyzeImage, if_neg hlen, ingestLoop_eq_append]
  constructor
  · rw [hrw]
    simp [mkEntries_length]
  · intro j hj d d'
    rw [hrw, getD_append_offset, mkEntries_getD mkId uri now result.entries 0 j hj d d']
    rfl

/-- Analysis result for the C3 theorems: one line item whose category
    guess 食材 is not a canonical name. -/
def c3CtxResult : AIAnalysisResult :=
  ⟨[⟨⟨"2026-01-04", 2026, 1, 0⟩, "スーパー", 100, some "食材"⟩], 1, none⟩

/-- C3 counterexample: the stored entry's category field is the raw
    guess 食材, while normalizeCategoryName would have produced 食費 —
    the ingestion flow does not invoke the Category Normalizer. -/
theorem c3_normalizer_not_applied_counterexample :
    ((analyzeImage (fun n => "id" ++ toString n) "uri" "now" c3CtxResult []).map
        (fun e => e.categoryId)) = ["食材"] ∧
    normalizeCategoryName (some "食材") = "食費" ∧
    ¬ ("食材" = "食費") := by
  refine ⟨by decide, by decide, by decide⟩

/-- Default entry used only to read off positions in the C3 witness. -/
def c3DefEntry : Entry :=
  { id := "", date := ⟨"", 0, 0, 0⟩, itemName := "", amount := 0, categoryId := "" }

/-- Default line item used only to read off positions in the C3 witness. -/
def c3DefItem : AIItem :=
  ⟨⟨"", 0, 0, 0⟩, "", 0, none⟩

/-- C3 witness: the amended statement on the concrete one-item result —
    exactly one entry is written and its category field is the raw guess
    with falsy-or fallback. -/
theorem c3_ingestion_stores_raw_guess_witness :
    (analyzeImage (fun n => "id" ++ toString n) "uri" "now" c3CtxResult []).length
        = ([] : List Entry).length + c3CtxResult.entries.length ∧
    ((analyzeImage (fun n => "id" ++ toString n) "uri" "now" c3CtxResult []).getD
        (([] : List Entry).length + 0) c3DefEntry).categoryId
      = jsOrElse ((c3CtxResult.entries.getD 0 c3DefItem).suggestedCategory) "その他" :=
  ⟨(c3_ingestion_stores_raw_guess (fun n => "id" ++ toString n) "uri" "now"
      c3CtxResult [] (by decide)).1,
   (c3_ingestion_stores_raw_guess (fun n => "id" ++ toString n) "uri" "now"
      c3CtxResult [] (by decide)).2 0 (by decide) c3DefEntry c3DefItem⟩
